import Mathlib

/-!
# Verification of the VXP rotor track-and-balance evaluation engine

Shallow embedding of `src/vxp/solver.py` (the whole domain logic of the
repository).  Python floats are modelled as rationals (`ℚ`), so every
arithmetic step of the source is exact; Python `dict[str, Measurement]`
is modelled as an association list in insertion order (a Python dict is
an ordered map with distinct keys); raising an exception is modelled by
the `Option` monad returning `none`.

The `Measurement` record itself lives in `vxp/types.py`, which is not
part of the sources; its shape is fully determined by how `solver.py`
reads it and by the spec's data model: `track_mm` maps each of the four
blades to a millimetre reading (a dict, so a key may be absent in
malformed inputs — modelled as `Blade → Option ℚ`), and `balance` has
the two numeric fields `amp_ips` and `phase_deg`.
-/

namespace VXP

/-- The four blade identifiers, `BLADES = ["BLU", "GRN", "YEL", "RED"]`. -/
inductive Blade where
  | BLU
  | GRN
  | YEL
  | RED
deriving DecidableEq, Repr

open Blade

/-- The list `BLADES` in its fixed declaration order. -/
def BLADES : List Blade := [BLU, GRN, YEL, RED]

/-- The three regime identifier strings, and a fourth string outside the set. -/
def GROUND : String := "GROUND"

def HOVER : String := "HOVER"

def HORIZ : String := "HORIZ"

/-- The list `REGIMES = ["GROUND", "HOVER", "HORIZ"]`. -/
def REGIMES : List String := [GROUND, HOVER, HORIZ]

/-- The table `BLADE_CLOCK_DEG` assigning each blade its clock azimuth:
YEL 0.0, RED 90.0, BLU 180.0, GRN 270.0. -/
def BLADE_CLOCK_DEG : Blade → ℚ
  | YEL => 0
  | RED => 90
  | BLU => 180
  | GRN => 270

def PITCHLINK_MM_PER_TURN : ℚ := 10

def TRIMTAB_MMTRACK_PER_MM : ℚ := 15

def BOLT_IPS_PER_GRAM : ℚ := 0.0020

/-- The `balance` field of a measurement: `amp_ips` and `phase_deg`. -/
structure Balance where
  amp_ips : ℚ
  phase_deg : ℚ

/-- A measurement record.  `track_mm` is a dict keyed by blade; a missing
key (malformed input) is `none`. -/
structure Measurement where
  track_mm : Blade → Option ℚ
  balance : Balance

/-- A measurement is well-formed when all four blade keys are present. -/
def Measurement.WellFormed (m : Measurement) : Prop :=
  ∀ b : Blade, (m.track_mm b).isSome

/-- Legacy track limit: `track_limit(regime) = 15.0`, constant. -/
def track_limit (_ : String) : ℚ := 15

/-- Legacy balance limit: `0.20 if regime == "GROUND" else 0.15`. -/
def balance_limit (r : String) : ℚ := if r = GROUND then 0.20 else 0.15

/-- Acceptance track limit, constant `20.0`. -/
def acceptance_track_limit (_ : String) : ℚ := 20

/-- Procedural track limit, constant `30.0`. -/
def procedural_track_limit (_ : String) : ℚ := 30

/-- Acceptance balance limit, constant `0.20`. -/
def acceptance_balance_limit (_ : String) : ℚ := 0.20

/-- Procedural balance limit, constant `0.30`. -/
def procedural_balance_limit (_ : String) : ℚ := 0.30

/-- Embeds `track_spread(m) = max(vals) - min(vals)` for
`vals = [m.track_mm[b] for b in BLADES]`; a missing blade key raises
(`none`).  `max`/`min` of the nonempty `vals` are folds from its head. -/
def track_spread (m : Measurement) : Option ℚ := do
  let vB ← m.track_mm BLU
  let vG ← m.track_mm GRN
  let vY ← m.track_mm YEL
  let vR ← m.track_mm RED
  return ([vG, vY, vR].foldl max vB - [vG, vY, vR].foldl min vB)

/-- The five-valued status: Python returns `None` (ABSENT) or one of the
strings below; we model the result as `Option Status`. -/
inductive Status where
  | OK
  | WARN
  | STOP
  | DONE
deriving DecidableEq, Repr

/-- Embeds `regime_status(regime, m)`; `none` models Python `None` (ABSENT).
The `try`/`except` around the spread/amplitude extraction is the
`match` on `track_spread m` (`none` = exception → DONE). -/
def regime_status (regime : String) (m : Option Measurement) : Option Status :=
  match m with
  | none => none
  | some m =>
    match track_spread m with
    | none => some Status.DONE
    | some ts =>
      let amp := m.balance.amp_ips
      if regime ∉ REGIMES then some Status.DONE
      else if ts > procedural_track_limit regime ∨ amp > procedural_balance_limit regime then
        some Status.STOP
      else if ts > acceptance_track_limit regime ∨ amp > acceptance_balance_limit regime then
        some Status.WARN
      else some Status.OK

/-- A Python dict regime → Measurement, in insertion order. -/
abbrev MeasMap := List (String × Measurement)

/-- Dict access `meas_by_regime[r]` / `r in meas_by_regime`: first binding for `r`. -/
def lookupRegime (meas : MeasMap) (r : String) : Option Measurement :=
  (meas.find? (fun p => p.1 == r)).map Prod.snd

/-- The loop of `all_ok` over `REGIMES`; an exception from `track_spread`
propagates (`none`). -/
def all_ok_from : List String → MeasMap → Option Bool
  | [], _ => some true
  | r :: rs, meas =>
    match lookupRegime meas r with
    | none => some false
    | some m =>
      match track_spread m with
      | none => none
      | some ts =>
        if ts > track_limit r then some false
        else if m.balance.amp_ips > balance_limit r then some false
        else all_ok_from rs meas

/-- Embeds `all_ok(meas_by_regime)`. -/
def all_ok (meas : MeasMap) : Option Bool := all_ok_from REGIMES meas

/-- Python `round`: nearest integer, ties to even (banker's rounding). -/
def pyround (x : ℚ) : ℤ :=
  if x - Int.floor x < 1/2 then Int.floor x
  else if x - Int.floor x > 1/2 then Int.floor x + 1
  else if Int.floor x % 2 = 0 then Int.floor x else Int.floor x + 1

/-- Embeds `_round_quarter(x) = round(x * 4.0) / 4.0`. -/
def round_quarter (x : ℚ) : ℚ := (pyround (x * 4) : ℚ) / 4

/-- Python `%` on numbers (sign follows the divisor; here divisor > 0):
`x % y = x - y * floor(x / y)`. -/
def pymod (x y : ℚ) : ℚ := x - y * Int.floor (x / y)

/-- The blades a pitch-link / trim-tab result maps to a value for; the
Python functions build a dict over `BLADES` with one entry per blade,
modelled as a total function `Blade → ℚ`. -/
def mkBladeMap (vB vG vY vR : ℚ) : Blade → ℚ
  | BLU => vB
  | GRN => vG
  | YEL => vY
  | RED => vR

/-- The per-blade body of `suggest_pitchlink`: average the blade's
`track_mm` over `used` and quarter-round `(-avg) / 10.0`; a missing
regime or blade key raises (`none`). -/
def pitch_for_blade (meas : MeasMap) (used : List String) (b : Blade) : Option ℚ := do
  let vals ← used.mapM (fun r => do
    let m ← lookupRegime meas r
    m.track_mm b)
  let avg := vals.sum / (used.length : ℚ)
  return round_quarter ((-avg) / PITCHLINK_MM_PER_TURN)

/-- Embeds `suggest_pitchlink(meas)`:
`used = [r for r in ("GROUND", "HOVER") if r in meas]`; if empty, all
zeros, else the per-blade averages. -/
def suggest_pitchlink (meas : MeasMap) : Option (Blade → ℚ) :=
  let used := [GROUND, HOVER].filter (fun r => (lookupRegime meas r).isSome)
  if used = [] then some (fun _ => 0)
  else do
    let vB ← pitch_for_blade meas used BLU
    let vG ← pitch_for_blade meas used GRN
    let vY ← pitch_for_blade meas used YEL
    let vR ← pitch_for_blade meas used RED
    return mkBladeMap vB vG vY vR

/-- The per-blade body of `suggest_trimtabs`:
`max(-5.0, min(5.0, _round_quarter((-dev) / 15.0)))`. -/
def trimtab_for_blade (m : Measurement) (b : Blade) : Option ℚ := do
  let dev ← m.track_mm b
  return max (-5) (min 5 (round_quarter ((-dev) / TRIMTAB_MMTRACK_PER_MM)))

/-- Embeds `suggest_trimtabs(meas)`: zero for all blades when `"HORIZ"` is
absent, else the clamped quarter-rounded per-blade bends. -/
def suggest_trimtabs (meas : MeasMap) : Option (Blade → ℚ) :=
  match lookupRegime meas HORIZ with
  | none => some (fun _ => 0)
  | some m => do
    let vB ← trimtab_for_blade m BLU
    let vG ← trimtab_for_blade m GRN
    let vY ← trimtab_for_blade m YEL
    let vR ← trimtab_for_blade m RED
    return mkBladeMap vB vG vY vR

/-- Python `max(l, key=f)` on a list: the first element attaining the
maximum (the fold keeps the current best on ties). -/
def pymax {α : Type} (f : α → ℚ) : List α → Option α
  | [] => none
  | x :: xs => some (xs.foldl (fun best y => if f y > f best then y else best) x)

/-- Python `min(l, key=f)` on a list: the first element attaining the
minimum. -/
def pymin {α : Type} (f : α → ℚ) : List α → Option α
  | [] => none
  | x :: xs => some (xs.foldl (fun best y => if f y < f best then y else best) x)

/-- The circular distance `dist(a, b) = min(d, 360.0 - d)` with
`d = abs(a - b) % 360.0`. -/
def circ_dist (a b : ℚ) : ℚ :=
  let d := pymod |a - b| 360
  min d (360 - d)

/-- Embeds `suggest_weight(meas)`.  Python `max(meas.keys(), key=...)` followed by the
dict lookup of the winner is, on a dict (distinct keys), the first
key-value pair with maximal `amp_ips` in iteration order — `pymax` over
the association list.  `min(BLADES, key=...)` is `pymin` over `BLADES`
(never `none` since `BLADES` is nonempty; the `getD` default is inert). -/
def suggest_weight (meas : MeasMap) : Blade × ℚ :=
  match pymax (fun p => p.2.balance.amp_ips) meas with
  | none => (YEL, 0)
  | some wp =>
    let amp := wp.2.balance.amp_ips
    let phase := wp.2.balance.phase_deg
    let target := pymod (phase + 180) 360
    let blade := (pymin (fun bb => circ_dist target (BLADE_CLOCK_DEG bb)) BLADES).getD YEL
    let grams := max 5 (min 120 ((pyround (amp / BOLT_IPS_PER_GRAM / 5) : ℚ) * 5))
    (blade, grams)

/-- Severity order used by the spec's monotonicity property:
OK < WARN < STOP.  DONE never arises for a recognized regime with a
well-formed measurement, so its rank is irrelevant there. -/
def severity : Status → ℕ
  | Status.OK => 0
  | Status.WARN => 1
  | Status.STOP => 2
  | Status.DONE => 0

/-- A regime string outside the fixed three-element set. -/
def CRUISE : String := "CRUISE"

/-- The all-zero measurement of the spec's end-to-end scenario. -/
def mz : Measurement := ⟨fun _ => some 0, ⟨0, 0⟩⟩

/-- The end-to-end scenario input: all three regimes, all values zero. -/
def measAllZero : MeasMap := [(GROUND, mz), (HOVER, mz), (HORIZ, mz)]

/-- A single measurement with `amp_ips = 0.01` and `phase_deg = 0`. -/
def m01 : Measurement := ⟨fun _ => some 0, ⟨0.01, 0⟩⟩

/-- A measurement with `phase_deg = 45`: its weight target is `225`,
equally distant (45°) from the BLU (180°) and GRN (270°) clocks. -/
def mTie : Measurement := ⟨fun _ => some 0, ⟨0.01, 45⟩⟩

/-- A tie-breaking input for the weight suggestion. -/
def measTie : MeasMap := [(HOVER, mTie)]

/-- A malformed measurement: the RED blade key is missing. -/
def mMissing : Measurement := ⟨fun b => if b = RED then none else some 0, ⟨0, 0⟩⟩

/-- One regime passes the legacy check: present, spread at most the
legacy track limit, amplitude at most the legacy balance limit. -/
def LegacyPass (meas : MeasMap) (r : String) : Prop :=
  ∃ m ts, lookupRegime meas r = some m ∧ track_spread m = some ts ∧
    ts ≤ track_limit r ∧ m.balance.amp_ips ≤ balance_limit r

end VXP

namespace VXP

open Blade

theorem foldl_pickMax_mem {α : Type} (f : α → ℚ) (x : α) (xs : List α) :
    xs.foldl (fun best y => if f y > f best then y else best) x ∈ x :: xs := by
  induction xs generalizing x with
  | nil => simp
  | cons z zs ih =>
    have h := ih (if f z > f x then z else x)
    simp only [List.foldl_cons]
    rcases List.mem_cons.mp h with h1 | h1
    · rw [h1]; split_ifs <;> simp
    · exact List.mem_cons_of_mem _ (List.mem_cons_of_mem _ h1)

theorem foldl_pickMax_ge {α : Type} (f : α → ℚ) (x : α) (xs : List α) :
    ∀ y ∈ x :: xs, f y ≤ f (xs.foldl (fun best y => if f y > f best then y else best) x) := by
  induction xs generalizing x with
  | nil => intro y hy; simp at hy; subst hy; exact le_refl _
  | cons z zs ih =>
    intro y hy
    simp only [List.foldl_cons]
    have hstep : f x ≤ f (if f z > f x then z else x) ∧ f z ≤ f (if f z > f x then z else x) := by
      by_cases hc : f z > f x
      · rw [if_pos hc]; exact ⟨le_of_lt hc, le_refl _⟩
      · rw [if_neg hc]; exact ⟨le_refl _, le_of_not_lt hc⟩
    have hhead := ih (if f z > f x then z else x) _ (List.mem_cons_self _ _)
    rcases List.mem_cons.mp hy with h1 | h1
    · subst h1; exact le_trans hstep.1 hhead
    · rcases List.mem_cons.mp h1 with h2 | h2
      · subst h2; exact le_trans hstep.2 hhead
      · exact ih _ y (List.mem_cons_of_mem _ h2)

theorem pymax_spec {α : Type} (f : α → ℚ) (l : List α) (w : α) (h : pymax f l = some w) :
    w ∈ l ∧ ∀ y ∈ l, f y ≤ f w := by
  cases l with
  | nil => simp [pymax] at h
  | cons x xs =>
    simp only [pymax, Option.some.injEq] at h
    subst h
    exact ⟨foldl_pickMax_mem f x xs, foldl_pickMax_ge f x xs⟩

theorem pymin_blades_spec (g : Blade → ℚ) :
    ∃ b, pymin g BLADES = some b ∧ b ∈ BLADES ∧ (∀ b' ∈ BLADES, g b ≤ g b') ∧
      ∀ b' ∈ BLADES.takeWhile (fun x => x != b), g b < g b' := by
  simp only [pymin, BLADES, List.foldl_cons, List.foldl_nil]
  split_ifs with h1 h2 h3 h3 h2 h3 h3 <;>
    refine ⟨_, rfl, by decide, fun b' hb' => ?_, fun b' hb' => ?_⟩ <;>
    fin_cases hb' <;> linarith

/-- Claim C8: `regime_status` returns ABSENT (`none`) iff the measurement
is `None`, and returns DONE for every regime string outside the fixed
three-element set when a well-formed measurement is present. -/
theorem regime_status_absent_and_done :
    (∀ (r : String) (m : Option Measurement), regime_status r m = none ↔ m = none) ∧
    (∀ (r : String) (mm : Measurement) (ts : ℚ), r ∉ REGIMES → track_spread mm = some ts →
      regime_status r (some mm) = some Status.DONE) := by
  constructor
  · intro r m
    cases m with
    | none => simp [regime_status]
    | some mm =>
      simp only [regime_status]
      cases hts : track_spread mm with
      | none => simp
      | some ts =>
        dsimp only
        by_cases hreg : r ∉ REGIMES
        · rw [if_pos hreg]; simp
        · rw [if_neg hreg]; split_ifs <;> simp
  · intro r mm ts hr hts
    simp only [regime_status, hts]
    rw [if_pos hr]

set_option maxHeartbeats 1000000 in
/-- Claim C9: a measurement missing a blade key makes `track_spread`
itself fail (`none`, modelling the raised `KeyError`), while
`regime_status` catches that failure locally and returns DONE for every
regime instead of propagating it. -/
theorem track_spread_missing_key (m : Measurement) (b : Blade) (h : m.track_mm b = none) :
    track_spread m = none ∧ ∀ r : String, regime_status r (some m) = some Status.DONE := by
  have hts : track_spread m = none := by
    cases b with
    | BLU => simp [track_spread, h]
    | GRN => cases hB : m.track_mm BLU <;> simp [track_spread, h, hB]
    | YEL =>
      cases hB : m.track_mm BLU <;> cases hG : m.track_mm GRN <;>
        simp [track_spread, h, hB, hG]
    | RED =>
      cases hB : m.track_mm BLU <;> cases hG : m.track_mm GRN <;>
        cases hY : m.track_mm YEL <;> simp [track_spread, h, hB, hG, hY]
  exact ⟨hts, fun r => by simp [regime_status, hts]⟩

/-- Witness for C9 at the concrete measurement whose RED key is missing. -/
theorem track_spread_missing_key_witness :
    track_spread mMissing = none ∧
      ∀ r : String, regime_status r (some mMissing) = some Status.DONE :=
  track_spread_missing_key mMissing Blade.RED rfl

theorem all_ok_from_iff (meas : MeasMap) (rs : List String) :
    all_ok_from rs meas = some true ↔ ∀ r ∈ rs, LegacyPass meas r := by
  induction rs with
  | nil => simp [all_ok_from]
  | cons r rs ih =>
    cases hm : lookupRegime meas r with
    | none =>
      simp only [all_ok_from, hm]
      constructor
      · intro h; simp at h
      · intro h
        obtain ⟨m2, ts2, hm2, _⟩ := h r (List.mem_cons_self r rs)
        rw [hm] at hm2; cases hm2
    | some m =>
      cases hts : track_spread m with
      | none =>
        simp only [all_ok_from, hm, hts]
        constructor
        · intro h; simp at h
        · intro h
          obtain ⟨m2, ts2, hm2, hts2, _⟩ := h r (List.mem_cons_self r rs)
          rw [hm] at hm2; injection hm2 with e; subst e
          rw [hts] at hts2; cases hts2
      | some ts =>
        simp only [all_ok_from, hm, hts]
        split_ifs with h1 h2
        · constructor
          · intro h; simp at h
          · intro h
            obtain ⟨m2, ts2, hm2, hts2, hle, _⟩ := h r (List.mem_cons_self r rs)
            rw [hm] at hm2; injection hm2 with e; subst e
            rw [hts] at hts2; injection hts2 with e2; subst e2
            exact absurd hle (not_le.mpr h1)
        · constructor
          · intro h; simp at h
          · intro h
            obtain ⟨m2, ts2, hm2, hts2, _, hle2⟩ := h r (List.mem_cons_self r rs)
            rw [hm] at hm2; injection hm2 with e; subst e
            exact absurd hle2 (not_le.mpr h2)
        · rw [ih, List.forall_mem_cons]
          exact (and_iff_right ⟨m, ts, hm, hts, le_of_not_lt h1, le_of_not_lt h2⟩).symm

theorem all_ok_from_ne_none (meas : MeasMap) (rs : List String)
    (hwf : ∀ r m, lookupRegime meas r = some m → (track_spread m).isSome) :
    all_ok_from rs meas ≠ none := by
  induction rs with
  | nil => simp [all_ok_from]
  | cons r rs ih =>
    cases hm : lookupRegime meas r with
    | none => simp [all_ok_from, hm]
    | some m =>
      cases hts : track_spread m with
      | none =>
        have hsome := hwf r m hm
        rw [hts] at hsome; cases hsome
      | some ts =>
        simp only [all_ok_from, hm, hts]
        split_ifs <;> simp [ih]

/-- Claim C2: `all_ok` returns true iff each of GROUND, HOVER, HORIZ is
present with track spread at most 15 and amplitude at most 0.20 (GROUND)
resp. 0.15 (others); and (for well-formed inputs) it returns false — not
an error — whenever one of the three regimes is missing. -/
theorem all_ok_legacy_limits :
    (∀ meas : MeasMap,
      all_ok meas = some true ↔
        ∀ r ∈ REGIMES, ∃ m ts, lookupRegime meas r = some m ∧ track_spread m = some ts ∧
          ts ≤ 15 ∧ m.balance.amp_ips ≤ (if r = GROUND then (0.20 : ℚ) else 0.15)) ∧
    (∀ meas : MeasMap,
      (∀ r m, lookupRegime meas r = some m → (track_spread m).isSome) →
      (∃ r ∈ REGIMES, lookupRegime meas r = none) → all_ok meas = some false) := by
  constructor
  · intro meas
    rw [all_ok, all_ok_from_iff]
    unfold LegacyPass track_limit balance_limit
    exact Iff.rfl
  · intro meas hwf hmiss
    obtain ⟨r, hr, hnone⟩ := hmiss
    have h1 : all_ok meas ≠ some true := by
      intro hcontr
      rw [all_ok, all_ok_from_iff] at hcontr
      obtain ⟨m2, _, hm2, _⟩ := hcontr r hr
      rw [hnone] at hm2; cases hm2
    have h2 : all_ok meas ≠ none := all_ok_from_ne_none meas REGIMES hwf
    cases hall : all_ok meas with
    | none => exact absurd hall h2
    | some b =>
      cases b with
      | true => exact absurd hall h1
      | false => rfl

/-- Claim C1: for a recognized regime and a well-formed measurement, the
status is STOP iff spread or amplitude exceeds the procedural limits
(checked first), WARN iff not STOP but spread or amplitude exceeds the
acceptance limits, and OK iff neither exceeds its acceptance limit. -/
theorem regime_status_bands (r : String) (m : Measurement) (ts : ℚ)
    (hr : r ∈ REGIMES) (hts : track_spread m = some ts) :
    (regime_status r (some m) = some Status.STOP ↔
      ts > procedural_track_limit r ∨ m.balance.amp_ips > procedural_balance_limit r) ∧
    (regime_status r (some m) = some Status.WARN ↔
      ¬(ts > procedural_track_limit r ∨ m.balance.amp_ips > procedural_balance_limit r) ∧
        (ts > acceptance_track_limit r ∨ m.balance.amp_ips > acceptance_balance_limit r)) ∧
    (regime_status r (some m) = some Status.OK ↔
      ts ≤ acceptance_track_limit r ∧ m.balance.amp_ips ≤ acceptance_balance_limit r) := by
  have hnr : ¬r ∉ REGIMES := not_not_intro hr
  simp only [regime_status, hts]
  rw [if_neg hnr]
  simp only [procedural_track_limit, procedural_balance_limit, acceptance_track_limit,
    acceptance_balance_limit]
  split_ifs with h1 h2
  · refine ⟨⟨fun _ => h1, fun _ => rfl⟩,
      ⟨fun h => absurd h (by decide), fun h => absurd h1 h.1⟩,
      ⟨fun h => absurd h (by decide), fun h => ?_⟩⟩
    exfalso; rcases h1 with a | a
    · exact absurd h.1 (not_le.mpr (by linarith))
    · exact absurd h.2 (not_le.mpr (by linarith))
  · refine ⟨⟨fun h => absurd h (by decide), fun h => absurd h h1⟩,
      ⟨fun _ => ⟨h1, h2⟩, fun _ => rfl⟩,
      ⟨fun h => absurd h (by decide), fun h => ?_⟩⟩
    exfalso; rcases h2 with a | a
    · exact absurd h.1 (not_le.mpr a)
    · exact absurd h.2 (not_le.mpr a)
  · push_neg at h1 h2
    refine ⟨⟨fun h => absurd h (by decide), fun h => ?_⟩,
      ⟨fun h => absurd h (by decide), fun h => ?_⟩,
      ⟨fun _ => ⟨h2.1, h2.2⟩, fun _ => rfl⟩⟩
    · rcases h with a | a
      · exact absurd a (not_lt.mpr h1.1)
      · exact absurd a (not_lt.mpr h1.2)
    · rcases h.2 with a | a
      · exact absurd a (not_lt.mpr h2.1)
      · exact absurd a (not_lt.mpr h2.2)

/-- Witness for C1 at regime GROUND with the all-zero measurement. -/
theorem regime_status_bands_witness :
    regime_status GROUND (some mz) = some Status.OK :=
  ((regime_status_bands GROUND mz 0 (List.mem_cons_self _ _) (by simp [track_spread, mz])).2.2).mpr
    (by norm_num [acceptance_track_limit, acceptance_balance_limit, mz])

/-- Claim C7: for a recognized regime, growing the track spread and the
amplitude never lowers the status severity (OK < WARN < STOP). -/
theorem regime_status_monotone (r : String) (m1 m2 : Measurement) (t1 t2 : ℚ)
    (s1 s2 : Status) (hr : r ∈ REGIMES)
    (h1 : track_spread m1 = some t1) (h2 : track_spread m2 = some t2)
    (hts : t1 ≤ t2) (hamp : m1.balance.amp_ips ≤ m2.balance.amp_ips)
    (hs1 : regime_status r (some m1) = some s1)
    (hs2 : regime_status r (some m2) = some s2) :
    severity s1 ≤ severity s2 := by
  have hnr : ¬r ∉ REGIMES := not_not_intro hr
  simp only [regime_status, h1] at hs1
  simp only [regime_status, h2] at hs2
  rw [if_neg hnr] at hs1 hs2
  simp only [procedural_track_limit, procedural_balance_limit, acceptance_track_limit,
    acceptance_balance_limit] at hs1 hs2
  split_ifs at hs1 with a1 a2 <;> split_ifs at hs2 with b1 b2 <;>
    injection hs1 with e1 <;> injection hs2 with e2 <;> subst e1 <;> subst e2 <;>
    simp only [severity] <;> try omega
  · exfalso; rcases a1 with a | a <;> rcases not_or.mp b1 with ⟨c, d⟩ <;> linarith
  · exfalso; rcases a1 with a | a <;> rcases not_or.mp b1 with ⟨c, d⟩ <;> linarith
  · exfalso; rcases a2 with a | a <;> rcases not_or.mp b2 with ⟨c, d⟩ <;> linarith

/-- Witness for C7 at GROUND with the all-zero measurement twice. -/
theorem regime_status_monotone_witness :
    severity Status.OK ≤ severity Status.OK :=
  regime_status_monotone GROUND mz mz 0 0 Status.OK Status.OK
    (List.mem_cons_self _ _) (by simp [track_spread, mz]) (by simp [track_spread, mz])
    le_rfl le_rfl
    (by
      have hts : track_spread mz = some 0 := by simp [track_spread, mz]
      simp only [regime_status, hts]
      rw [if_neg (not_not_intro (show GROUND ∈ REGIMES from List.mem_cons_self _ _))]
      rw [if_neg (by norm_num [procedural_track_limit, procedural_balance_limit, mz]),
        if_neg (by norm_num [acceptance_track_limit, acceptance_balance_limit, mz])])
    (by
      have hts : track_spread mz = some 0 := by simp [track_spread, mz]
      simp only [regime_status, hts]
      rw [if_neg (not_not_intro (show GROUND ∈ REGIMES from List.mem_cons_self _ _))]
      rw [if_neg (by norm_num [procedural_track_limit, procedural_balance_limit, mz]),
        if_neg (by norm_num [acceptance_track_limit, acceptance_balance_limit, mz])])

theorem trimtab_for_blade_bounds (m : Measurement) (b : Blade) (v : ℚ)
    (h : trimtab_for_blade m b = some v) : -5 ≤ v ∧ v ≤ 5 := by
  cases hd : m.track_mm b with
  | none => rw [trimtab_for_blade, hd] at h; cases h
  | some d =>
    rw [trimtab_for_blade, hd] at h
    simp only [Option.bind_eq_bind, Option.some_bind, Option.pure_def,
      Option.some.injEq] at h
    subst h
    exact ⟨le_max_left _ _, max_le (by norm_num) (min_le_left _ _)⟩

/-- Claim C4: a trim-tab suggestion is zero on all blades when HORIZ is
absent; every returned per-blade value lies in [-5, 5]; and each value
is the quarter-rounding of `-track_mm/15` with the clamp applied after
the rounding. -/
theorem suggest_trimtabs_spec (meas : MeasMap) :
    (lookupRegime meas HORIZ = none → suggest_trimtabs meas = some fun _ => 0) ∧
    (∀ f, suggest_trimtabs meas = some f → ∀ b, -5 ≤ f b ∧ f b ≤ 5) ∧
    (∀ m, lookupRegime meas HORIZ = some m → m.WellFormed →
      ∃ f, suggest_trimtabs meas = some f ∧
        ∀ b d, m.track_mm b = some d →
          f b = max (-5) (min 5 (round_quarter ((-d) / 15)))) := by
  refine ⟨fun h => by rw [suggest_trimtabs, h], ?_, ?_⟩
  · intro f hf b
    cases hm : lookupRegime meas HORIZ with
    | none =>
      rw [suggest_trimtabs, hm] at hf
      simp only [Option.some.injEq] at hf
      subst hf
      norm_num
    | some m =>
      rw [suggest_trimtabs, hm] at hf
      simp only [Option.bind_eq_bind, Option.bind_eq_some, Option.pure_def,
        Option.some.injEq] at hf
      obtain ⟨vB, h1, vG, h2, vY, h3, vR, h4, hmk⟩ := hf
      subst hmk
      cases b with
      | BLU => exact trimtab_for_blade_bounds m BLU vB h1
      | GRN => exact trimtab_for_blade_bounds m GRN vG h2
      | YEL => exact trimtab_for_blade_bounds m YEL vY h3
      | RED => exact trimtab_for_blade_bounds m RED vR h4
  · intro m hm hwf
    obtain ⟨dB, hdB⟩ := Option.isSome_iff_exists.mp (hwf BLU)
    obtain ⟨dG, hdG⟩ := Option.isSome_iff_exists.mp (hwf GRN)
    obtain ⟨dY, hdY⟩ := Option.isSome_iff_exists.mp (hwf YEL)
    obtain ⟨dR, hdR⟩ := Option.isSome_iff_exists.mp (hwf RED)
    have eB : trimtab_for_blade m BLU = some (max (-5) (min 5 (round_quarter ((-dB) / 15)))) := by
      rw [trimtab_for_blade, hdB]; simp [TRIMTAB_MMTRACK_PER_MM]
    have eG : trimtab_for_blade m GRN = some (max (-5) (min 5 (round_quarter ((-dG) / 15)))) := by
      rw [trimtab_for_blade, hdG]; simp [TRIMTAB_MMTRACK_PER_MM]
    have eY : trimtab_for_blade m YEL = some (max (-5) (min 5 (round_quarter ((-dY) / 15)))) := by
      rw [trimtab_for_blade, hdY]; simp [TRIMTAB_MMTRACK_PER_MM]
    have eR : trimtab_for_blade m RED = some (max (-5) (min 5 (round_quarter ((-dR) / 15)))) := by
      rw [trimtab_for_blade, hdR]; simp [TRIMTAB_MMTRACK_PER_MM]
    refine ⟨mkBladeMap
        (max (-5) (min 5 (round_quarter ((-dB) / 15))))
        (max (-5) (min 5 (round_quarter ((-dG) / 15))))
        (max (-5) (min 5 (round_quarter ((-dY) / 15))))
        (max (-5) (min 5 (round_quarter ((-dR) / 15)))), ?_, ?_⟩
    · rw [suggest_trimtabs, hm]
      simp only [eB, eG, eY, eR, Option.bind_eq_bind, Option.some_bind, Option.pure_def]
    · intro b d hd
      cases b with
      | BLU => rw [hdB] at hd; injection hd with e; subst e; rfl
      | GRN => rw [hdG] at hd; injection hd with e; subst e; rfl
      | YEL => rw [hdY] at hd; injection hd with e; subst e; rfl
      | RED => rw [hdR] at hd; injection hd with e; subst e; rfl

/-- Claim C6: `suggest_pitchlink` averages each blade over whichever of
GROUND and HOVER are present and quarter-rounds `-average/10`, with no
clamping; with neither present (HORIZ alone included) it returns zero
for all four blades. -/
theorem suggest_pitchlink_spec (meas : MeasMap) :
    (lookupRegime meas GROUND = none → lookupRegime meas HOVER = none →
      suggest_pitchlink meas = some fun _ => 0) ∧
    (∀ mg, lookupRegime meas GROUND = some mg → lookupRegime meas HOVER = none →
      mg.WellFormed →
      ∃ f, suggest_pitchlink meas = some f ∧
        ∀ b d, mg.track_mm b = some d → f b = round_quarter ((-d) / 10)) ∧
    (∀ mh, lookupRegime meas GROUND = none → lookupRegime meas HOVER = some mh →
      mh.WellFormed →
      ∃ f, suggest_pitchlink meas = some f ∧
        ∀ b d, mh.track_mm b = some d → f b = round_quarter ((-d) / 10)) ∧
    (∀ mg mh, lookupRegime meas GROUND = some mg → lookupRegime meas HOVER = some mh →
      mg.WellFormed → mh.WellFormed →
      ∃ f, suggest_pitchlink meas = some f ∧
        ∀ b dg dh, mg.track_mm b = some dg → mh.track_mm b = some dh →
          f b = round_quarter ((-((dg + dh) / 2)) / 10)) := by
  refine ⟨?_, ?_, ?_, ?_⟩
  · intro hg hh
    have hu : [GROUND, HOVER].filter (fun r => (lookupRegime meas r).isSome) = [] := by
      simp [hg, hh]
    rw [suggest_pitchlink]
    simp only [hu, if_pos]
  · intro mg hg hh hwf
    have hu : [GROUND, HOVER].filter (fun r => (lookupRegime meas r).isSome) = [GROUND] := by
      simp [hg, hh]
    have hPB : ∀ b d, mg.track_mm b = some d →
        pitch_for_blade meas [GROUND] b = some (round_quarter ((-d) / 10)) := by
      intro b d hd
      rw [pitch_for_blade]
      simp [List.mapM.loop, hg, hd, PITCHLINK_MM_PER_TURN]
    obtain ⟨dB, hdB⟩ := Option.isSome_iff_exists.mp (hwf BLU)
    obtain ⟨dG, hdG⟩ := Option.isSome_iff_exists.mp (hwf GRN)
    obtain ⟨dY, hdY⟩ := Option.isSome_iff_exists.mp (hwf YEL)
    obtain ⟨dR, hdR⟩ := Option.isSome_iff_exists.mp (hwf RED)
    refine ⟨mkBladeMap (round_quarter ((-dB) / 10)) (round_quarter ((-dG) / 10))
        (round_quarter ((-dY) / 10)) (round_quarter ((-dR) / 10)), ?_, ?_⟩
    · rw [suggest_pitchlink]
      simp only [hu]
      rw [if_neg (by simp)]
      simp only [hPB BLU dB hdB, hPB GRN dG hdG, hPB YEL dY hdY, hPB RED dR hdR,
        Option.bind_eq_bind, Option.some_bind, Option.pure_def]
    · intro b d hd
      cases b with
      | BLU => rw [hdB] at hd; injection hd with e; subst e; rfl
      | GRN => rw [hdG] at hd; injection hd with e; subst e; rfl
      | YEL => rw [hdY] at hd; injection hd with e; subst e; rfl
      | RED => rw [hdR] at hd; injection hd with e; subst e; rfl
  · intro mh hg hh hwf
    have hu : [GROUND, HOVER].filter (fun r => (lookupRegime meas r).isSome) = [HOVER] := by
      simp [hg, hh]
    have hPB : ∀ b d, mh.track_mm b = some d →
        pitch_for_blade meas [HOVER] b = some (round_quarter ((-d) / 10)) := by
      intro b d hd
      rw [pitch_for_blade]
      simp [List.mapM.loop, hh, hd, PITCHLINK_MM_PER_TURN]
    obtain ⟨dB, hdB⟩ := Option.isSome_iff_exists.mp (hwf BLU)
    obtain ⟨dG, hdG⟩ := Option.isSome_iff_exists.mp (hwf GRN)
    obtain ⟨dY, hdY⟩ := Option.isSome_iff_exists.mp (hwf YEL)
    obtain ⟨dR, hdR⟩ := Option.isSome_iff_exists.mp (hwf RED)
    refine ⟨mkBladeMap (round_quarter ((-dB) / 10)) (round_quarter ((-dG) / 10))
        (round_quarter ((-dY) / 10)) (round_quarter ((-dR) / 10)), ?_, ?_⟩
    · rw [suggest_pitchlink]
      simp only [hu]
      rw [if_neg (by simp)]
      simp only [hPB BLU dB hdB, hPB GRN dG hdG, hPB YEL dY hdY, hPB RED dR hdR,
        Option.bind_eq_bind, Option.some_bind, Option.pure_def]
    · intro b d hd
      cases b with
      | BLU => rw [hdB] at hd; injection hd with e; subst e; rfl
      | GRN => rw [hdG] at hd; injection hd with e; subst e; rfl
      | YEL => rw [hdY] at hd; injection hd with e; subst e; rfl
      | RED => rw [hdR] at hd; injection hd with e; subst e; rfl
  · intro mg mh hg hh hwfg hwfh
    have hu : [GROUND, HOVER].filter (fun r => (lookupRegime meas r).isSome)
        = [GROUND, HOVER] := by
      simp [hg, hh]
    have hPB : ∀ b dg dh, mg.track_mm b = some dg → mh.track_mm b = some dh →
        pitch_for_blade meas [GROUND, HOVER] b
          = some (round_quarter ((-((dg + dh) / 2)) / 10)) := by
      intro b dg dh hdg hdh
      rw [pitch_for_blade]
      simp [List.mapM.loop, hg, hh, hdg, hdh, PITCHLINK_MM_PER_TURN]
    obtain ⟨gB, hgB⟩ := Option.isSome_iff_exists.mp (hwfg BLU)
    obtain ⟨gG, hgG⟩ := Option.isSome_iff_exists.mp (hwfg GRN)
    obtain ⟨gY, hgY⟩ := Option.isSome_iff_exists.mp (hwfg YEL)
    obtain ⟨gR, hgR⟩ := Option.isSome_iff_exists.mp (hwfg RED)
    obtain ⟨hB, hhB⟩ := Option.isSome_iff_exists.mp (hwfh BLU)
    obtain ⟨hG, hhG⟩ := Option.isSome_iff_exists.mp (hwfh GRN)
    obtain ⟨hY, hhY⟩ := Option.isSome_iff_exists.mp (hwfh YEL)
    obtain ⟨hR, hhR⟩ := Option.isSome_iff_exists.mp (hwfh RED)
    refine ⟨mkBladeMap
        (round_quarter ((-((gB + hB) / 2)) / 10)) (round_quarter ((-((gG + hG) / 2)) / 10))
        (round_quarter ((-((gY + hY) / 2)) / 10)) (round_quarter ((-((gR + hR) / 2)) / 10)),
        ?_, ?_⟩
    · rw [suggest_pitchlink]
      simp only [hu]
      rw [if_neg (by simp)]
      simp only [hPB BLU gB hB hgB hhB, hPB GRN gG hG hgG hhG, hPB YEL gY hY hgY hhY,
        hPB RED gR hR hgR hhR, Option.bind_eq_bind, Option.some_bind, Option.pure_def]
    · intro b dg dh hdg hdh
      cases b with
      | BLU =>
        rw [hgB] at hdg; rw [hhB] at hdh
        injection hdg with e1; injection hdh with e2; subst e1; subst e2; rfl
      | GRN =>
        rw [hgG] at hdg; rw [hhG] at hdh
        injection hdg with e1; injection hdh with e2; subst e1; subst e2; rfl
      | YEL =>
        rw [hgY] at hdg; rw [hhY] at hdh
        injection hdg with e1; injection hdh with e2; subst e1; subst e2; rfl
      | RED =>
        rw [hgR] at hdg; rw [hhR] at hdh
        injection hdg with e1; injection hdh with e2; subst e1; subst e2; rfl

theorem suggest_weight_eq (meas : MeasMap) (wp : String × Measurement)
    (hmax : pymax (fun q => q.2.balance.amp_ips) meas = some wp) :
    suggest_weight meas =
      ((pymin (fun bb => circ_dist (pymod (wp.2.balance.phase_deg + 180) 360)
          (BLADE_CLOCK_DEG bb)) BLADES).getD YEL,
        max 5 (min 120 ((pyround (wp.2.balance.amp_ips / BOLT_IPS_PER_GRAM / 5) : ℚ) * 5))) := by
  rw [suggest_weight, hmax]

/-- Claim C3: for a non-empty mapping, `suggest_weight` picks the first
measurement of maximal amplitude, targets `(phase + 180) mod 360`, picks
the blade circularly nearest that target, and suggests `amp / 0.0020`
rounded to the nearest multiple of 5 then clamped to `[5, 120]` grams;
at a single regime with phase 0 and amplitude 0.01 that is BLU and 5 g. -/
theorem suggest_weight_spec :
    (∀ meas : MeasMap, meas ≠ [] →
      ∃ wp, pymax (fun q => q.2.balance.amp_ips) meas = some wp ∧
        wp ∈ meas ∧ (∀ q ∈ meas, q.2.balance.amp_ips ≤ wp.2.balance.amp_ips) ∧
        (suggest_weight meas).1 ∈ BLADES ∧
        (∀ b' ∈ BLADES,
          circ_dist (pymod (wp.2.balance.phase_deg + 180) 360)
              (BLADE_CLOCK_DEG (suggest_weight meas).1) ≤
            circ_dist (pymod (wp.2.balance.phase_deg + 180) 360) (BLADE_CLOCK_DEG b')) ∧
        (suggest_weight meas).2 =
          max 5 (min 120 ((pyround (wp.2.balance.amp_ips / 0.0020 / 5) : ℚ) * 5))) ∧
    suggest_weight [(HOVER, m01)] = (BLU, 5) := by
  constructor
  · intro meas hne
    cases meas with
    | nil => exact absurd rfl hne
    | cons p rest =>
      have hmax : pymax (fun q => q.2.balance.amp_ips) (p :: rest) =
          some (rest.foldl
            (fun best y => if y.2.balance.amp_ips > best.2.balance.amp_ips then y else best)
            p) := rfl
      obtain ⟨hmem, hmaxall⟩ := pymax_spec (fun q => q.2.balance.amp_ips) (p :: rest) _ hmax
      obtain ⟨b0, hb0, hb0mem, hb0min, _⟩ :=
        pymin_blades_spec (fun bb =>
          circ_dist
            (pymod
              ((rest.foldl
                (fun best y => if y.2.balance.amp_ips > best.2.balance.amp_ips then y else best)
                p).2.balance.phase_deg + 180) 360)
            (BLADE_CLOCK_DEG bb))
      have hsw := suggest_weight_eq (p :: rest) _ hmax
      have h1 : (suggest_weight (p :: rest)).1 = b0 := by rw [hsw, hb0]; rfl
      refine ⟨_, hmax, hmem, hmaxall, ?_, ?_, ?_⟩
      · rw [h1]; exact hb0mem
      · rw [h1]; exact hb0min
      · rw [hsw]; rfl
  · simp only [suggest_weight, pymax, List.foldl_nil, pymin, BLADES, List.foldl_cons, m01]
    norm_num [pymod, circ_dist, BLADE_CLOCK_DEG, min_def, max_def, pyround, BOLT_IPS_PER_GRAM]

/-- Claim C10: for a non-empty mapping the returned blade is the first
blade in the fixed order BLU, GRN, YEL, RED whose clock azimuth is
circularly nearest the target phase: it attains the minimum distance and
every blade listed before it is strictly farther. -/
theorem suggest_weight_tiebreak (meas : MeasMap) (wp : String × Measurement) (t : ℚ)
    (hmax : pymax (fun q => q.2.balance.amp_ips) meas = some wp)
    (ht : t = pymod (wp.2.balance.phase_deg + 180) 360) :
    (suggest_weight meas).1 ∈ BLADES ∧
    (∀ b' ∈ BLADES, circ_dist t (BLADE_CLOCK_DEG (suggest_weight meas).1)
        ≤ circ_dist t (BLADE_CLOCK_DEG b')) ∧
    (∀ b' ∈ BLADES.takeWhile (fun x => x != (suggest_weight meas).1),
      circ_dist t (BLADE_CLOCK_DEG (suggest_weight meas).1) < circ_dist t (BLADE_CLOCK_DEG b')) := by
  subst ht
  obtain ⟨b0, hb0, hb0mem, hb0min, hb0first⟩ :=
    pymin_blades_spec (fun bb =>
      circ_dist (pymod (wp.2.balance.phase_deg + 180) 360) (BLADE_CLOCK_DEG bb))
  have h1 : (suggest_weight meas).1 = b0 := by
    rw [suggest_weight_eq meas wp hmax, hb0]; rfl
  rw [h1]
  exact ⟨hb0mem, hb0min, hb0first⟩

/-- Witness for C10 at a tie: phase 45 gives target 225, equally distant
from BLU (180) and GRN (270); the first of the tied blades is returned. -/
theorem suggest_weight_tiebreak_witness :
    (suggest_weight measTie).1 ∈ BLADES ∧
    (∀ b' ∈ BLADES, circ_dist 225 (BLADE_CLOCK_DEG (suggest_weight measTie).1)
        ≤ circ_dist 225 (BLADE_CLOCK_DEG b')) ∧
    (∀ b' ∈ BLADES.takeWhile (fun x => x != (suggest_weight measTie).1),
      circ_dist 225 (BLADE_CLOCK_DEG (suggest_weight measTie).1)
        < circ_dist 225 (BLADE_CLOCK_DEG b')) :=
  suggest_weight_tiebreak measTie (HOVER, mTie) 225 rfl (by norm_num [pymod, mTie])

/-- Counterexample to C5 as stated: at the all-zero scenario the weight
suggestion is the 180-degree blade BLU, not the 0-degree blade YEL. -/
theorem end_to_end_zero_weight_cex :
    (suggest_weight measAllZero).1 = BLU ∧ BLADE_CLOCK_DEG BLU = 180 ∧
      BLADE_CLOCK_DEG YEL = 0 ∧ (suggest_weight measAllZero).1 ≠ YEL := by
  have h : suggest_weight measAllZero = (BLU, 5) := by
    simp only [suggest_weight, pymax, List.foldl_cons, List.foldl_nil, measAllZero, mz,
      pymin, BLADES]
    norm_num [pymod, circ_dist, BLADE_CLOCK_DEG, min_def, max_def, pyround, BOLT_IPS_PER_GRAM]
  rw [h]
  refine ⟨rfl, rfl, rfl, by decide⟩

/-- Claim C5 (amended): at the all-zero three-regime scenario every
status is OK, `all_ok` is true, pitch-link and trim-tab suggestions are
all zero, and the weight suggestion is blade BLU (the 180-degree blade,
opposite the zero phase) with 5.0 grams (raw 0 clamped up to 5). -/
theorem end_to_end_zero :
    (∀ r ∈ REGIMES, regime_status r (lookupRegime measAllZero r) = some Status.OK) ∧
    all_ok measAllZero = some true ∧
    (∃ f, suggest_pitchlink measAllZero = some f ∧ ∀ b, f b = 0) ∧
    (∃ f, suggest_trimtabs measAllZero = some f ∧ ∀ b, f b = 0) ∧
    suggest_weight measAllZero = (BLU, 5) := by
  have h1 : lookupRegime measAllZero GROUND = some mz := rfl
  have h2 : lookupRegime measAllZero HOVER = some mz := rfl
  have h3 : lookupRegime measAllZero HORIZ = some mz := rfl
  have hts : track_spread mz = some 0 := by simp [track_spread, mz]
  refine ⟨?_, ?_, ?_, ?_, ?_⟩
  · intro r hr
    have hlk : lookupRegime measAllZero r = some mz := by fin_cases hr <;> assumption
    rw [hlk]
    simp only [regime_status, hts]
    rw [if_neg (not_not_intro hr)]
    rw [if_neg (by norm_num [procedural_track_limit, procedural_balance_limit, mz]),
      if_neg (by norm_num [acceptance_track_limit, acceptance_balance_limit, mz])]
  · have hb1 : balance_limit GROUND = 0.20 := if_pos rfl
    have hb2 : balance_limit HOVER = 0.15 := if_neg (by decide)
    have hb3 : balance_limit HORIZ = 0.15 := if_neg (by decide)
    rw [all_ok, REGIMES]
    simp only [all_ok_from, h1, h2, h3, hts, hb1, hb2, hb3, track_limit]
    norm_num [mz]
  · have hu : [GROUND, HOVER].filter (fun r => (lookupRegime measAllZero r).isSome)
        = [GROUND, HOVER] := by simp [h1, h2]
    have hPB : ∀ b, pitch_for_blade measAllZero [GROUND, HOVER] b = some 0 := by
      intro b
      rw [pitch_for_blade]
      norm_num [List.mapM.loop, h1, h2, mz, PITCHLINK_MM_PER_TURN, round_quarter, pyround]
    refine ⟨mkBladeMap 0 0 0 0, ?_, fun b => by cases b <;> rfl⟩
    rw [suggest_pitchlink]
    simp only [hu]
    rw [if_neg (by simp)]
    simp only [hPB, Option.bind_eq_bind, Option.some_bind, Option.pure_def]
  · have hTB : ∀ b, trimtab_for_blade mz b = some 0 := by
      intro b
      rw [trimtab_for_blade]
      norm_num [mz, TRIMTAB_MMTRACK_PER_MM, round_quarter, pyround, max_def, min_def]
    refine ⟨mkBladeMap 0 0 0 0, ?_, fun b => by cases b <;> rfl⟩
    rw [suggest_trimtabs, h3]
    simp only [hTB, Option.bind_eq_bind, Option.some_bind, Option.pure_def]
  · simp only [suggest_weight, pymax, List.foldl_cons, List.foldl_nil, measAllZero, mz,
      pymin, BLADES]
    norm_num [pymod, circ_dist, BLADE_CLOCK_DEG, min_def, max_def, pyround, BOLT_IPS_PER_GRAM]

end VXP
